import Mathlib

/-
Verification of the pyxfer/montgomery object-graph transcoder.

The repository generates, per entity type, a serializer function
(SQLAWalker.walk emits its source text).  The generated function has a fixed
shape; we embed that shape as an executable Lean function over an explicit
source heap, destination heap and cache, and embed the generation-time
algorithms (scheduler, relation checks, merge generators, cache-key
generators) directly.
-/

namespace Pyxfer

/-- Association-list lookup, modelling Python dict lookup where the most
recent assignment wins (we cons new entries at the front). -/
def alookup {α β : Type} [DecidableEq α] : List (α × β) → α → Option β
  | [], _ => none
  | (k, v) :: rest, key => if k = key then some v else alookup rest key

/-- Source-side entity instance: one key field, one plain data field, the
single relations (name, optional pointed-to source object id) and the
collection relations (name, list of source object ids).  Object ids play the
role of Python object identity. -/
structure SObj where
  key : Int
  data : Int
  single : List (String × Option Nat)
  coll : List (String × List Nat)
deriving DecidableEq, Repr

/-- Destination-side instance.  Collections may hold the value written by a
child serializer call, which in Python is None exactly when the child source
was None, hence the item type Option Nat. -/
structure DObj where
  key : Int
  data : Int
  single : List (String × Option Nat)
  coll : List (String × List (Option Nat))
deriving DecidableEq, Repr

def DObj.empty : DObj := ⟨0, 0, [], []⟩

/-- Mutable state threaded by a generated serializer: the caller-supplied
cache (cache key, modelled by the source object id, to destination id), the
destination heap, and the allocator for fresh destination ids.

The generated cache key is a tuple of the cache base name and the Python
id() of the source object (TypeSupport.cache_key default implementation);
since every source object is serialized by exactly one serializer of the
built network, the pair is in bijection with the source object id, which is
what we store. -/
structure St where
  cache : List (Nat × Nat)
  dheap : List (Nat × DObj)
  next : Nat
deriving DecidableEq, Repr

/-- Update the destination object stored under id d. -/
def updD (dheap : List (Nat × DObj)) (d : Nat) (f : DObj → DObj) : List (Nat × DObj) :=
  match dheap with
  | [] => []
  | (k, o) :: rest => if k = d then (k, f o) :: rest else (k, o) :: updD rest d f

/-- Generated field-copy block: copy key fields then non-key fields
(SQLAWalker._field_copy, invoked twice by walk). -/
def setFields (st : St) (d : Nat) (k dt : Int) : St :=
  { st with dheap := updD st.dheap d (fun o => { o with key := k, data := dt }) }

/-- Generated single-relation write: dest.name = childResult. -/
def writeSingle (st : St) (d : Nat) (name : String) (r : Option Nat) : St :=
  { st with dheap := updD st.dheap d (fun o => { o with single := (name, r) :: o.single }) }

/-- Read the current destination collection for relation name of object d. -/
def readColl (st : St) (d : Nat) (name : String) : List (Option Nat) :=
  match alookup st.dheap d with
  | some o => (alookup o.coll name).getD []
  | none => []

/-- Store the merged collection back (the generated code mutates the list in
place; we snapshot it). -/
def writeColl (st : St) (d : Nat) (name : String) (l : List (Option Nat)) : St :=
  { st with dheap := updD st.dheap d (fun o => { o with coll := (name, l) :: o.coll }) }

/-- Generated instance creation when the caller passes destination = None. -/
def alloc (st : St) : Nat × St :=
  (st.next, { st with dheap := st.dheap ++ [(st.next, DObj.empty)], next := st.next + 1 })

/-- The generated cache registration (default TypeSupport.cache_on_write):
cache[cacheKey] = dest, emitted before any relation is recursed into. -/
def cacheOnWrite (st : St) (sid d : Nat) : St := { st with cache := (sid, d) :: st.cache }

/-- Generated code for the single relations of walk: per relation, the
presence test on the source (gen_is_single_relation_present: the relation
value itself, which is falsy exactly when the nested object is absent) and,
when present, dest.name = childSerializer(source.name, None). -/
def serSingles (ser : Option Nat → Option Nat → St → Option (Option Nat × St)) (d : Nat) :
    List (String × Option Nat) → St → Option St
  | [], st => some st
  | (name, tgt) :: rest, st =>
    match tgt with
    | none => serSingles ser d rest st
    | some t =>
      (ser (some t) none st).bind
        (fun p => serSingles ser d rest (writeSingle p.2 d name p.1))

/-- The per-item loop of the generated collection merge
(gen_merge_relation_sqla, list-shaped): for each source item compute rck
with the parent cache base name, look it up in the cache (dest_item =
cache.get(rck, None)), serialize the item into the found destination (or
None), append the result when the lookup missed, and record it in the used
set. -/
def serItems (ser : Option Nat → Option Nat → St → Option (Option Nat × St)) :
    List Nat → List (Option Nat) → List (Option Nat) → St →
    Option (List (Option Nat) × List (Option Nat) × St)
  | [], dcoll, used, st => some (dcoll, used, st)
  | item :: rest, dcoll, used, st =>
    (ser (some item) (alookup st.cache item) st).bind
      (fun p =>
        serItems ser rest
          (match alookup st.cache item with
           | none => dcoll ++ [p.1]
           | some _ => dcoll)
          (if p.1 ∈ used then used else used ++ [p.1]) p.2)

/-- The post-loop removal of the generated merge:
for item in set(destCollection) - used: destCollection.remove(item).
Python set difference enumerates each distinct stale element once and
list.remove erases its first occurrence. -/
def removeExtras {α : Type} [DecidableEq α] (dcoll used : List α) : List α :=
  (dcoll.dedup.filter (fun e => ¬ e ∈ used)).foldl List.erase dcoll

/-- Generated code for the collection relations of walk: each delegated
relation runs the merge loop against the current destination collection and
stores the reconciled collection. -/
def serColls (ser : Option Nat → Option Nat → St → Option (Option Nat × St)) (d : Nat) :
    List (String × List Nat) → St → Option St
  | [], st => some st
  | (name, items) :: rest, st =>
    (serItems ser items (readColl st d name) [] st).bind
      (fun out => serColls ser d rest (writeColl out.2.2 d name (removeExtras out.1 out.2.1)))

/-- The generated serializer body after the destination instance has been
resolved to d: copy key then non-key fields, register (cacheKey, dest) in
the cache, process single relations, process collection relations, return
dest. -/
def serBody (ser : Option Nat → Option Nat → St → Option (Option Nat × St))
    (sid : Nat) (obj : SObj) (d : Nat) (st1 : St) : Option (Option Nat × St) :=
  (serSingles ser d obj.single (cacheOnWrite (setFields st1 d obj.key obj.data) sid d)).bind
    (fun st4 => (serColls ser d obj.coll st4).bind (fun st5 => some (some d, st5)))

/-- The generated serializer (SQLAWalker.walk), with a fuel argument
standing for the recursion depth Python allows.  Order of the emitted steps:
return None on absent source; compute the cache key and return the cached
destination on a hit; use the caller-supplied destination instance or create
one; then serBody. -/
def serFuel (heap : List (Nat × SObj)) : Nat → Option Nat → Option Nat → St → Option (Option Nat × St)
  | 0, _, _, _ => none
  | _ + 1, none, _, st => some (none, st)
  | fuel + 1, some sid, dst, st =>
    match alookup st.cache sid with
    | some d => some (some d, st)
    | none =>
      match alookup heap sid with
      | none => some (none, st)
      | some obj =>
        match dst with
        | some d => serBody (serFuel heap fuel) sid obj d st
        | none => serBody (serFuel heap fuel) sid obj (alloc st).1 (alloc st).2

/-- Top-level invocation of a generated transform: run the body with enough
recursion depth for the graph at hand (the number of heap objects not yet in
the cache). -/
def mu (heap : List (Nat × SObj)) (st : St) : Nat :=
  ((heap.map Prod.fst).dedup.filter (fun i => (alookup st.cache i).isNone)).length

def transform (heap : List (Nat × SObj)) (src dst : Option Nat) (st : St) :
    Option (Option Nat × St) :=
  serFuel heap (mu heap st + 1) src dst st

/-- Cache entries are never lost nor overwritten by a generated serializer
run, destination allocations are bounded by cache growth, and distinctness
of the cached source identities is preserved (an identity is registered only
on a cache miss). -/
def StPres (s s' : St) : Prop :=
  (∀ k v, alookup s.cache k = some v → alookup s'.cache k = some v) ∧
  s'.next + s.cache.length ≤ s.next + s'.cache.length ∧
  ((s.cache.map Prod.fst).Nodup → (s'.cache.map Prod.fst).Nodup)

theorem stPres_refl (s : St) : StPres s s := ⟨fun _ _ h => h, Nat.le_refl _, id⟩

theorem stPres_trans {a b c : St} (h1 : StPres a b) (h2 : StPres b c) : StPres a c :=
  ⟨fun k v h => h2.1 k v (h1.1 k v h),
   by have := h1.2.1; have := h2.2.1; omega,
   fun h => h2.2.2 (h1.2.2 h)⟩

theorem stPres_of_eq {a b : St} (hc : b.cache = a.cache) (hn : b.next = a.next) :
    StPres a b := by
  refine ⟨?_, ?_, ?_⟩
  · intro k v h; rw [hc]; exact h
  · rw [hc, hn]
  · rw [hc]; exact id

theorem alookup_none_not_mem {α β : Type} [DecidableEq α] {l : List (α × β)} {k : α}
    (h : alookup l k = none) : ¬ k ∈ l.map Prod.fst := by
  induction l with
  | nil => simp
  | cons a t ih =>
    simp only [alookup] at h
    by_cases he : a.1 = k
    · rw [if_pos he] at h; cases h
    · rw [if_neg he] at h
      simp only [List.map_cons, List.mem_cons]
      rintro (hx | hx)
      · exact he hx.symm
      · exact ih h hx

theorem writeSingle_cache (st : St) (d : Nat) (n : String) (r : Option Nat) :
    (writeSingle st d n r).cache = st.cache := rfl

theorem writeColl_cache (st : St) (d : Nat) (n : String) (l : List (Option Nat)) :
    (writeColl st d n l).cache = st.cache := rfl

theorem setFields_cache (st : St) (d : Nat) (k dt : Int) :
    (setFields st d k dt).cache = st.cache := rfl

theorem mu_congr (heap : List (Nat × SObj)) {s s' : St} (h : s'.cache = s.cache) :
    mu heap s' = mu heap s := by
  unfold mu; rw [h]

theorem length_filter_le_of_imp {α : Type} (l : List α) (p q : α → Bool)
    (h : ∀ a ∈ l, p a = true → q a = true) :
    (l.filter p).length ≤ (l.filter q).length := by
  induction l with
  | nil => simp
  | cons a t ih =>
    have ht : ∀ b ∈ t, p b = true → q b = true := fun b hb => h b (List.mem_cons_of_mem a hb)
    by_cases hp : p a = true
    · have hq := h a (List.mem_cons_self a t) hp
      simp [List.filter, hp, hq]
      exact ih ht
    · have hp' : p a = false := by revert hp; cases p a <;> simp
      simp [List.filter, hp']
      cases hq : q a <;> simp [hq]
      · exact ih ht
      · exact Nat.le_succ_of_le (ih ht)

theorem length_filter_lt_of_imp {α : Type} (l : List α) (p q : α → Bool)
    (h : ∀ a ∈ l, p a = true → q a = true)
    (x : α) (hx : x ∈ l) (hqx : q x = true) (hpx : p x = false) :
    (l.filter p).length < (l.filter q).length := by
  induction l with
  | nil => cases hx
  | cons a t ih =>
    have ht : ∀ b ∈ t, p b = true → q b = true := fun b hb => h b (List.mem_cons_of_mem a hb)
    rcases List.mem_cons.mp hx with rfl | hxt
    · simp [List.filter, hpx, hqx]
      exact Nat.lt_succ_of_le (length_filter_le_of_imp t p q ht)
    · have hstep := ih ht hxt
      by_cases hp : p a = true
      · have hq := h a (List.mem_cons_self a t) hp
        simpa [List.filter, hp, hq] using hstep
      · have hp' : p a = false := by revert hp; cases p a <;> simp
        simp [List.filter, hp']
        cases hq : q a <;> simp [hq]
        · exact hstep
        · exact Nat.lt_succ_of_lt hstep

theorem mu_le_of_pres (heap : List (Nat × SObj)) {s s' : St}
    (h : ∀ k v, alookup s.cache k = some v → alookup s'.cache k = some v) :
    mu heap s' ≤ mu heap s := by
  apply length_filter_le_of_imp
  intro i _ hp
  cases hs : alookup s.cache i with
  | none => simp [hs]
  | some v =>
    have := h i v hs
    simp [this] at hp

theorem alookup_mem_keys {α β : Type} [DecidableEq α] {l : List (α × β)} {k : α} {v : β}
    (h : alookup l k = some v) : k ∈ l.map Prod.fst := by
  induction l with
  | nil => simp [alookup] at h
  | cons a t ih =>
    by_cases he : a.1 = k
    · simp [he]
    · simp only [alookup] at h
      rw [if_neg he] at h
      exact List.mem_cons_of_mem _ (ih h)

/-- Registering a not-yet-cached heap object strictly decreases the count of
uncached heap objects: this is the decreasing measure that makes the
cache-before-recurse ordering terminate on cyclic graphs. -/
theorem mu_insert_lt (heap : List (Nat × SObj)) (st : St) (sid d : Nat)
    (hmem : sid ∈ heap.map Prod.fst)
    (hnew : alookup st.cache sid = none) :
    mu heap { st with cache := (sid, d) :: st.cache } < mu heap st := by
  apply length_filter_lt_of_imp
  · intro i _ hp
    simp only [alookup] at hp
    by_cases he : sid = i
    · rw [if_pos he] at hp; simp at hp
    · rw [if_neg he] at hp; simpa using hp
  · exact List.mem_dedup.mpr hmem
  · simp [hnew]
  · simp [alookup]



theorem cacheOnWrite_pres (st : St) (sid d : Nat) (hc : alookup st.cache sid = none) :
    (∀ k v, alookup st.cache k = some v → alookup (cacheOnWrite st sid d).cache k = some v) := by
  intro k v hkv
  simp only [cacheOnWrite, alookup]
  by_cases he : sid = k
  · subst he; rw [hc] at hkv; cases hkv
  · rw [if_neg he]; exact hkv

theorem serSingles_pres
    (ser : Option Nat → Option Nat → St → Option (Option Nat × St))
    (hser : ∀ x y s r s', ser x y s = some (r, s') → StPres s s') (d : Nat) :
    ∀ (l : List (String × Option Nat)) (st st' : St),
      serSingles ser d l st = some st' → StPres st st' := by
  intro l
  induction l with
  | nil =>
    intro st st' h
    simp only [serSingles] at h
    cases h
    exact stPres_refl _
  | cons hd t ih =>
    intro st st' h
    obtain ⟨name, tgt⟩ := hd
    cases tgt with
    | none =>
      simp only [serSingles] at h
      exact ih st st' h
    | some tg =>
      simp only [serSingles] at h
      cases hs : ser (some tg) none st with
      | none => simp only [hs, Option.none_bind] at h; cases h
      | some p =>
        simp only [hs, Option.some_bind] at h
        exact stPres_trans (hser _ _ _ _ _ hs)
          (stPres_trans (stPres_of_eq rfl rfl) (ih (writeSingle p.2 d name p.1) st' h))

theorem serItems_pres
    (ser : Option Nat → Option Nat → St → Option (Option Nat × St))
    (hser : ∀ x y s r s', ser x y s = some (r, s') → StPres s s') :
    ∀ (items : List Nat) (dcoll used : List (Option Nat)) (st : St) out,
      serItems ser items dcoll used st = some out → StPres st out.2.2 := by
  intro items
  induction items with
  | nil =>
    intro dcoll used st out h
    simp only [serItems] at h
    cases h
    exact stPres_refl _
  | cons item t ih =>
    intro dcoll used st out h
    simp only [serItems] at h
    cases hs : ser (some item) (alookup st.cache item) st with
    | none => simp only [hs, Option.none_bind] at h; cases h
    | some p =>
      simp only [hs, Option.some_bind] at h
      exact stPres_trans (hser _ _ _ _ _ hs) (ih _ _ _ _ h)

theorem serColls_pres
    (ser : Option Nat → Option Nat → St → Option (Option Nat × St))
    (hser : ∀ x y s r s', ser x y s = some (r, s') → StPres s s') (d : Nat) :
    ∀ (l : List (String × List Nat)) (st st' : St),
      serColls ser d l st = some st' → StPres st st' := by
  intro l
  induction l with
  | nil =>
    intro st st' h
    simp only [serColls] at h
    cases h
    exact stPres_refl _
  | cons hd t ih =>
    intro st st' h
    obtain ⟨name, items⟩ := hd
    simp only [serColls] at h
    cases hs : serItems ser items (readColl st d name) [] st with
    | none => simp only [hs, Option.none_bind] at h; cases h
    | some out =>
      simp only [hs, Option.some_bind] at h
      exact stPres_trans (serItems_pres ser hser items _ _ _ _ hs)
        (stPres_trans (stPres_of_eq rfl rfl)
          (ih (writeColl out.2.2 d name (removeExtras out.1 out.2.1)) st' h))

theorem serBody_pres
    (ser : Option Nat → Option Nat → St → Option (Option Nat × St))
    (hser : ∀ x y s r s', ser x y s = some (r, s') → StPres s s')
    (sid : Nat) (obj : SObj) (d : Nat) (st1 : St) (r : Option Nat) (st' : St)
    (hc : alookup st1.cache sid = none)
    (h : serBody ser sid obj d st1 = some (r, st')) :
    (∀ k v, alookup st1.cache k = some v → alookup st'.cache k = some v) ∧
      st'.next + st1.cache.length + 1 ≤ st1.next + st'.cache.length ∧
      ((st1.cache.map Prod.fst).Nodup → (st'.cache.map Prod.fst).Nodup) ∧ r = some d := by
  simp only [serBody] at h
  cases hs1 : serSingles ser d obj.single (cacheOnWrite (setFields st1 d obj.key obj.data) sid d) with
  | none => simp only [hs1, Option.none_bind] at h; cases h
  | some st4 =>
    simp only [hs1, Option.some_bind] at h
    cases hs2 : serColls ser d obj.coll st4 with
    | none => simp only [hs2, Option.none_bind] at h; cases h
    | some st5 =>
      simp only [hs2, Option.some_bind, Option.some_inj, Prod.mk.injEq] at h
      obtain ⟨hr, hst⟩ := h
      subst hst
      subst hr
      have hp : StPres (cacheOnWrite (setFields st1 d obj.key obj.data) sid d) st5 :=
        stPres_trans (serSingles_pres ser hser d obj.single _ _ hs1)
          (serColls_pres ser hser d obj.coll _ _ hs2)
      refine ⟨?_, ?_, ?_, rfl⟩
      · intro k v hkv
        exact hp.1 k v (cacheOnWrite_pres (setFields st1 d obj.key obj.data) sid d hc k v hkv)
      · have := hp.2.1
        simp only [cacheOnWrite, setFields, List.length_cons] at this
        omega
      · intro hnd
        apply hp.2.2
        simp only [cacheOnWrite, setFields, List.map_cons, List.nodup_cons]
        exact ⟨alookup_none_not_mem hc, hnd⟩

/-- Every successful run of a generated serializer preserves existing cache
entries and allocates at most one destination instance per cache entry it
adds. -/
theorem serFuel_pres (heap : List (Nat × SObj)) :
    ∀ (fuel : Nat) (x y : Option Nat) (st : St) r st',
      serFuel heap fuel x y st = some (r, st') → StPres st st' := by
  intro fuel
  induction fuel with
  | zero => intro x y st r st' h; simp [serFuel] at h
  | succ f ih =>
    intro x y st r st' h
    cases x with
    | none =>
      simp only [serFuel] at h
      cases h
      exact stPres_refl _
    | some sid =>
      simp only [serFuel] at h
      cases hc : alookup st.cache sid with
      | some d =>
        rw [hc] at h
        cases h
        exact stPres_refl _
      | none =>
        rw [hc] at h
        cases hh : alookup heap sid with
        | none =>
          rw [hh] at h
          cases h
          exact stPres_refl _
        | some obj =>
          rw [hh] at h
          cases y with
          | some d =>
            have hb := serBody_pres (serFuel heap f)
              (fun x y s r s' hh2 => ih x y s r s' hh2) sid obj d st r st' hc h
            exact ⟨hb.1, by have := hb.2.1; omega, hb.2.2.1⟩
          | none =>
            have hc1 : alookup (alloc st).2.cache sid = none := hc
            have hb := serBody_pres (serFuel heap f)
              (fun x y s r s' hh2 => ih x y s r s' hh2) sid obj (alloc st).1 (alloc st).2 r st' hc1 h
            refine ⟨hb.1, ?_, hb.2.2.1⟩
            have := hb.2.1
            simp only [alloc] at this
            omega

section Total

variable (heap : List (Nat × SObj)) (fuel : Nat)
variable (ser : Option Nat → Option Nat → St → Option (Option Nat × St))

theorem serSingles_total
    (Htot : ∀ x y s, mu heap s < fuel → (ser x y s).isSome)
    (Hpres : ∀ x y s r s', ser x y s = some (r, s') → StPres s s') (d : Nat) :
    ∀ (l : List (String × Option Nat)) (st : St), mu heap st < fuel →
      (serSingles ser d l st).isSome := by
  intro l
  induction l with
  | nil => intro st _; simp [serSingles]
  | cons hd t ih =>
    intro st hmu
    obtain ⟨name, tgt⟩ := hd
    cases tgt with
    | none => simpa only [serSingles] using ih st hmu
    | some tg =>
      simp only [serSingles]
      cases hs : ser (some tg) none st with
      | none =>
        have := Htot (some tg) none st hmu
        rw [hs] at this
        cases this
      | some p =>
        simp only [Option.some_bind]
        apply ih
        have h1 : mu heap p.2 ≤ mu heap st := mu_le_of_pres heap (Hpres _ _ _ _ _ hs).1
        have h2 : mu heap (writeSingle p.2 d name p.1) = mu heap p.2 := mu_congr heap rfl
        omega

theorem serItems_total
    (Htot : ∀ x y s, mu heap s < fuel → (ser x y s).isSome)
    (Hpres : ∀ x y s r s', ser x y s = some (r, s') → StPres s s') :
    ∀ (items : List Nat) (dcoll used : List (Option Nat)) (st : St), mu heap st < fuel →
      (serItems ser items dcoll used st).isSome := by
  intro items
  induction items with
  | nil => intro dcoll used st _; simp [serItems]
  | cons item t ih =>
    intro dcoll used st hmu
    simp only [serItems]
    cases hs : ser (some item) (alookup st.cache item) st with
    | none =>
      have := Htot (some item) (alookup st.cache item) st hmu
      rw [hs] at this
      cases this
    | some p =>
      simp only [Option.some_bind]
      apply ih
      have h1 : mu heap p.2 ≤ mu heap st := mu_le_of_pres heap (Hpres _ _ _ _ _ hs).1
      omega

theorem serColls_total
    (Htot : ∀ x y s, mu heap s < fuel → (ser x y s).isSome)
    (Hpres : ∀ x y s r s', ser x y s = some (r, s') → StPres s s') (d : Nat) :
    ∀ (l : List (String × List Nat)) (st : St), mu heap st < fuel →
      (serColls ser d l st).isSome := by
  intro l
  induction l with
  | nil => intro st _; simp [serColls]
  | cons hd t ih =>
    intro st hmu
    obtain ⟨name, items⟩ := hd
    simp only [serColls]
    cases hs : serItems ser items (readColl st d name) [] st with
    | none =>
      have := serItems_total heap fuel ser Htot Hpres items (readColl st d name) [] st hmu
      rw [hs] at this
      cases this
    | some out =>
      simp only [Option.some_bind]
      apply ih
      have h1 : mu heap out.2.2 ≤ mu heap st :=
        mu_le_of_pres heap (serItems_pres ser Hpres items _ _ _ _ hs).1
      have h2 : mu heap (writeColl out.2.2 d name (removeExtras out.1 out.2.1)) = mu heap out.2.2 :=
        mu_congr heap rfl
      omega

theorem serBody_total
    (Htot : ∀ x y s, mu heap s < fuel → (ser x y s).isSome)
    (Hpres : ∀ x y s r s', ser x y s = some (r, s') → StPres s s')
    (sid : Nat) (obj : SObj) (d : Nat) (st1 : St)
    (hc : alookup st1.cache sid = none) (hmem : sid ∈ heap.map Prod.fst)
    (hmu : mu heap st1 ≤ fuel) :
    (serBody ser sid obj d st1).isSome := by
  have hmu3 : mu heap (cacheOnWrite (setFields st1 d obj.key obj.data) sid d) < fuel := by
    have he : mu heap (cacheOnWrite (setFields st1 d obj.key obj.data) sid d) =
        mu heap { st1 with cache := (sid, d) :: st1.cache } := mu_congr heap rfl
    have := mu_insert_lt heap st1 sid d hmem hc
    omega
  simp only [serBody]
  cases hs1 : serSingles ser d obj.single (cacheOnWrite (setFields st1 d obj.key obj.data) sid d) with
  | none =>
    have := serSingles_total heap fuel ser Htot Hpres d obj.single _ hmu3
    rw [hs1] at this
    cases this
  | some st4 =>
    simp only [Option.some_bind]
    have hmu4 : mu heap st4 < fuel := by
      have := mu_le_of_pres heap (serSingles_pres ser Hpres d obj.single _ _ hs1).1
      omega
    cases hs2 : serColls ser d obj.coll st4 with
    | none =>
      have := serColls_total heap fuel ser Htot Hpres d obj.coll st4 hmu4
      rw [hs2] at this
      cases this
    | some st5 => simp

end Total

/-- With fuel exceeding the number of uncached source objects, the generated
serializer never exhausts its fuel: the cache-before-recurse ordering makes
every cyclic source graph terminate. -/
theorem serFuel_total (heap : List (Nat × SObj)) :
    ∀ (fuel : Nat) (x y : Option Nat) (st : St), mu heap st < fuel →
      (serFuel heap fuel x y st).isSome := by
  intro fuel
  induction fuel with
  | zero => intro x y st h; omega
  | succ f ih =>
    intro x y st hmu
    cases x with
    | none => simp [serFuel]
    | some sid =>
      simp only [serFuel]
      cases hc : alookup st.cache sid with
      | some d => simp
      | none =>
        cases hh : alookup heap sid with
        | none => simp
        | some obj =>
          have hmem : sid ∈ heap.map Prod.fst := alookup_mem_keys hh
          cases y with
          | some d =>
            exact serBody_total heap f (serFuel heap f) (fun x y s h => ih x y s h)
              (fun x y s r s' h => serFuel_pres heap f x y s r s' h)
              sid obj d st hc hmem (by omega)
          | none =>
            apply serBody_total heap f (serFuel heap f) (fun x y s h => ih x y s h)
              (fun x y s r s' h => serFuel_pres heap f x y s r s' h)
              sid obj (alloc st).1 (alloc st).2 hc hmem
            have : mu heap (alloc st).2 = mu heap st := mu_congr heap rfl
            omega

theorem serBody_caches
    (ser : Option Nat → Option Nat → St → Option (Option Nat × St))
    (hser : ∀ x y s r s', ser x y s = some (r, s') → StPres s s')
    (sid : Nat) (obj : SObj) (d : Nat) (st1 : St) (r : Option Nat) (st' : St)
    (h : serBody ser sid obj d st1 = some (r, st')) :
    r = some d ∧ alookup st'.cache sid = some d := by
  simp only [serBody] at h
  cases hs1 : serSingles ser d obj.single (cacheOnWrite (setFields st1 d obj.key obj.data) sid d) with
  | none => simp only [hs1, Option.none_bind] at h; cases h
  | some st4 =>
    simp only [hs1, Option.some_bind] at h
    cases hs2 : serColls ser d obj.coll st4 with
    | none => simp only [hs2, Option.none_bind] at h; cases h
    | some st5 =>
      simp only [hs2, Option.some_bind, Option.some_inj, Prod.mk.injEq] at h
      obtain ⟨hr, hst⟩ := h
      refine ⟨hr.symm, ?_⟩
      rw [← hst]
      have hp : StPres (cacheOnWrite (setFields st1 d obj.key obj.data) sid d) st5 :=
        stPres_trans (serSingles_pres ser hser d obj.single _ _ hs1)
          (serColls_pres ser hser d obj.coll _ _ hs2)
      apply hp.1
      simp [cacheOnWrite, alookup]

/-- After a successful run that returned destination d for source sid, the
cache maps sid to d. -/
theorem serFuel_caches_result (heap : List (Nat × SObj)) (f : Nat) (sid : Nat)
    (dst : Option Nat) (st : St) (d : Nat) (st' : St)
    (h : serFuel heap (f + 1) (some sid) dst st = some (some d, st')) :
    alookup st'.cache sid = some d := by
  simp only [serFuel] at h
  cases hc : alookup st.cache sid with
  | some d0 =>
    rw [hc] at h
    simp only [Option.some_inj, Prod.mk.injEq] at h
    obtain ⟨hr, hst⟩ := h
    subst hst
    rw [hc, hr]
  | none =>
    rw [hc] at h
    cases hh : alookup heap sid with
    | none =>
      rw [hh] at h
      simp only [Option.some_inj, Prod.mk.injEq] at h
      cases h.1
    | some obj =>
      rw [hh] at h
      cases dst with
      | some d0 =>
        have hbc := serBody_caches (serFuel heap f)
          (fun x y s r s' hh2 => serFuel_pres heap f x y s r s' hh2) sid obj d0 st _ _ h
        have h1 : d = d0 := by
          have h0 := hbc.1
          rw [Option.some_inj] at h0
          exact h0
        rw [h1]
        exact hbc.2
      | none =>
        have hbc := serBody_caches (serFuel heap f)
          (fun x y s r s' hh2 => serFuel_pres heap f x y s r s' hh2) sid obj (alloc st).1 (alloc st).2 _ _ h
        have h1 : d = (alloc st).1 := by
          have h0 := hbc.1
          rw [Option.some_inj] at h0
          exact h0
        rw [h1]
        exact hbc.2

/-- C1: For every source entity graph, including graphs with reference
cycles through single and/or collection relations, invoking a built
Transform terminates (with the derived fuel bound it never exhausts fuel)
and produces at most one destination instance per distinct source identity:
the generated transform stores (cacheKey, dest) in the cache after copying
fields and strictly before invoking any child transform, so the number of
created destination instances is bounded by the number of newly registered
cache entries, previously registered entries are never lost (a recursive
call that reaches the same source instance again returns the cached
destination), and the registered source identities stay pairwise distinct. -/
theorem claim_C1_cycle_termination (heap : List (Nat × SObj)) (src dst : Option Nat) (st : St) :
    ∃ r st', transform heap src dst st = some (r, st') ∧
      (∀ k v, alookup st.cache k = some v → alookup st'.cache k = some v) ∧
      st'.next + st.cache.length ≤ st.next + st'.cache.length ∧
      ((st.cache.map Prod.fst).Nodup → (st'.cache.map Prod.fst).Nodup) := by
  have htot := serFuel_total heap (mu heap st + 1) src dst st (by omega)
  unfold transform
  cases h : serFuel heap (mu heap st + 1) src dst st with
  | none => rw [h] at htot; cases htot
  | some p =>
    obtain ⟨r, st'⟩ := p
    have hp := serFuel_pres heap _ _ _ _ _ _ h
    exact ⟨r, st', rfl, hp.1, hp.2.1, hp.2.2⟩

theorem claim_C1_cycle_termination_witness :
    ∃ r st',
      transform [(0, ⟨1, 42, [("a", some 1)], [("b", [1, 0])]⟩), (1, ⟨2, 5, [("c", some 0)], []⟩)]
        (some 0) none ⟨[(5, 7)], [], 0⟩ = some (r, st') ∧
      alookup st'.cache 5 = some 7 ∧ st'.next + 1 ≤ 0 + st'.cache.length := by
  obtain ⟨r, st', h1, h2, h3, h4⟩ := claim_C1_cycle_termination
    [(0, ⟨1, 42, [("a", some 1)], [("b", [1, 0])]⟩), (1, ⟨2, 5, [("c", some 0)], []⟩)]
    (some 0) none ⟨[(5, 7)], [], 0⟩
  exact ⟨r, st', h1, h2 5 7 (by decide), h3⟩

/-- C2: Invoking the same built Transform on the same source twice within
the same cache scope returns the identical destination instance both times:
the first successful run registers (cacheKey, dest); the second run finds
that entry and returns the cached destination immediately, with the state
unchanged — before any new instance is created or any field is copied. -/
theorem claim_C2_idempotent_reuse (heap : List (Nat × SObj)) (sid : Nat)
    (dst dst' : Option Nat) (st : St) (f g : Nat) (d : Nat) (st' : St)
    (h : serFuel heap (f + 1) (some sid) dst st = some (some d, st')) :
    serFuel heap (g + 1) (some sid) dst' st' = some (some d, st') := by
  have hc := serFuel_caches_result heap f sid dst st d st' h
  simp only [serFuel, hc]

theorem claim_C2_idempotent_reuse_witness :
    serFuel [(0, ⟨1, 42, [], []⟩)] 1 (some 0) none
        ⟨[(0, 0)], [(0, ⟨1, 42, [], []⟩)], 1⟩ =
      some (some 0, ⟨[(0, 0)], [(0, ⟨1, 42, [], []⟩)], 1⟩) :=
  claim_C2_idempotent_reuse [(0, ⟨1, 42, [], []⟩)] 0 none none ⟨[], [], 0⟩ 0 0 0
    ⟨[(0, 0)], [(0, ⟨1, 42, [], []⟩)], 1⟩ (by decide)

/-- C6: Invoking a built transform with an absent (None) source returns None
immediately with the state unchanged: no cache lookup succeeds, no
destination instance is created and no field is written.  This is the base
case that terminates recursion through optional single relations. -/
theorem claim_C6_none_source (heap : List (Nat × SObj)) (fuel : Nat)
    (dst : Option Nat) (st : St) :
    serFuel heap (fuel + 1) none dst st = some (none, st) := rfl

/-- Read the destination relation field written by the single-relation code
(dest.name), as an observer on the destination heap. -/
def readSingle (st : St) (d : Nat) (name : String) : Option (Option Nat) :=
  match alookup st.dheap d with
  | some o => alookup o.single name
  | none => none

theorem updD_alookup : ∀ (l : List (Nat × DObj)) (d2 : Nat) (f : DObj → DObj) (d : Nat),
    alookup (updD l d2 f) d = Option.map (fun o => if d2 = d then f o else o) (alookup l d)
  | [], d2, f, d => by simp [updD, alookup]
  | (k, o) :: t, d2, f, d => by
    by_cases hk : k = d2
    · by_cases hd : k = d
      · subst hk; subst hd
        simp [updD, alookup]
      · subst hk
        simp [updD, alookup, if_neg hd]
    · by_cases hd : k = d
      · subst hd
        have h2 : ¬ d2 = k := fun h => hk h.symm
        simp [updD, alookup, if_neg hk, if_neg h2]
      · simp only [updD, if_neg hk, alookup, if_neg hd]
        exact updD_alookup t d2 f d

theorem readSingle_setFields (st : St) (d2 : Nat) (k dt : Int) (d : Nat) (name : String) :
    readSingle (setFields st d2 k dt) d name = readSingle st d name := by
  simp only [readSingle, setFields, updD_alookup]
  cases alookup st.dheap d with
  | none => rfl
  | some o =>
    simp only [Option.map_some]
    by_cases hd : d2 = d <;> simp [hd]

theorem readSingle_cacheOnWrite (st : St) (sid dd d : Nat) (name : String) :
    readSingle (cacheOnWrite st sid dd) d name = readSingle st d name := rfl

theorem alookup_isSome_of_mem {α β : Type} [DecidableEq α] {l : List (α × β)} {k : α}
    (h : k ∈ l.map Prod.fst) : (alookup l k).isSome := by
  induction l with
  | nil => simp at h
  | cons a t ih =>
    simp only [List.map_cons, List.mem_cons] at h
    simp only [alookup]
    by_cases he : a.1 = k
    · rw [if_pos he]; rfl
    · rw [if_neg he]
      rcases h with h | h
      · exact absurd h.symm he
      · exact ih h

theorem readSingle_writeSingle_self (st : St) (d : Nat) (name : String) (res : Option Nat)
    (hmem : d ∈ st.dheap.map Prod.fst) :
    readSingle (writeSingle st d name res) d name = some res := by
  have := alookup_isSome_of_mem hmem
  cases ho : alookup st.dheap d with
  | none => rw [ho] at this; cases this
  | some o =>
    simp [readSingle, writeSingle, updD_alookup, ho, alookup]

/-- C9: For a built Transform and a single relation with a delegate
directive, if the source relation is absent (the generated presence test is
false) the destination relation field is left untouched and the run is not
an error; if the relation is present, the child transform is invoked on the
source relation value with destination None and its result is written to
the destination relation. -/
theorem claim_C9_single_relation_presence (heap : List (Nat × SObj)) (sid d : Nat)
    (name : String) (tgt : Option Nat) (obj : SObj) (f : Nat) (st : St)
    (r : Option Nat) (st' : St)
    (hobj : alookup heap sid = some obj)
    (hsing : obj.single = [(name, tgt)])
    (hcoll : obj.coll = [])
    (hc : alookup st.cache sid = none)
    (h : serFuel heap (f + 1) (some sid) (some d) st = some (r, st')) :
    (tgt = none → r = some d ∧
      st' = cacheOnWrite (setFields st d obj.key obj.data) sid d ∧
      readSingle st' d name = readSingle st d name) ∧
    (∀ t, tgt = some t → ∃ res stc,
      serFuel heap f (some t) none (cacheOnWrite (setFields st d obj.key obj.data) sid d) =
        some (res, stc) ∧
      r = some d ∧ st' = writeSingle stc d name res ∧
      (d ∈ stc.dheap.map Prod.fst → readSingle st' d name = some res)) := by
  simp only [serFuel, hc, hobj] at h
  simp only [serBody, hsing, hcoll] at h
  constructor
  · rintro rfl
    simp only [serSingles, serColls, Option.some_bind, Option.some_inj, Prod.mk.injEq] at h
    obtain ⟨hr, hst⟩ := h
    refine ⟨hr.symm, hst.symm, ?_⟩
    rw [← hst, readSingle_cacheOnWrite, readSingle_setFields]
  · rintro t rfl
    simp only [serSingles, serColls] at h
    cases hch : serFuel heap f (some t) none (cacheOnWrite (setFields st d obj.key obj.data) sid d) with
    | none => rw [hch] at h; cases h
    | some p =>
      obtain ⟨res, stc⟩ := p
      rw [hch] at h
      simp only [Option.some_bind, serSingles, serColls, Option.some_inj, Prod.mk.injEq] at h
      obtain ⟨hr, hst⟩ := h
      refine ⟨res, stc, rfl, hr.symm, hst.symm, ?_⟩
      intro hmem
      rw [← hst]
      exact readSingle_writeSingle_self stc d name res hmem

theorem claim_C9_single_relation_presence_witness :
    readSingle (cacheOnWrite (setFields (⟨[], [(7, DObj.empty)], 8⟩ : St) 7 1 2) 0 7) 7 "a" =
      readSingle (⟨[], [(7, DObj.empty)], 8⟩ : St) 7 "a" := by
  have h1 := claim_C9_single_relation_presence [(0, ⟨1, 2, [("a", none)], []⟩)] 0 7 "a"
      none ⟨1, 2, [("a", none)], []⟩ 1 ⟨[], [(7, DObj.empty)], 8⟩ (some 7)
      (cacheOnWrite (setFields ⟨[], [(7, DObj.empty)], 8⟩ 7 1 2) 0 7)
      (by decide) rfl rfl (by decide) (by decide)
  exact (h1.1 rfl).2.2

/-! String containment, used to state that error messages name the
offending entities. -/

/-- needle is a leading segment of hay. -/
def listIsHead {α : Type} [DecidableEq α] : List α → List α → Bool
  | [], _ => true
  | _ :: _, [] => false
  | a :: as, b :: bs => a = b && listIsHead as bs

/-- needle occurs contiguously inside hay. -/
def listHasSub {α : Type} [DecidableEq α] (needle : List α) : List α → Bool
  | [] => listIsHead needle []
  | b :: bs => listIsHead needle (b :: bs) || listHasSub needle bs

/-- The message hay mentions needle. -/
def strHasSub (hay needle : String) : Bool := listHasSub needle.data hay.data

theorem listIsHead_append {α : Type} [DecidableEq α] (n b : List α) :
    listIsHead n (n ++ b) = true := by
  induction n with
  | nil => rfl
  | cons a t ih => simp [listIsHead, ih]

theorem listHasSub_head {α : Type} [DecidableEq α] (n b : List α) :
    listHasSub n (n ++ b) = true := by
  cases h : n ++ b with
  | nil =>
    have hn : n = [] := by
      cases n with
      | nil => rfl
      | cons x xs => simp at h
    subst hn
    simp [listHasSub, listIsHead]
  | cons c cs =>
    have h2 : listIsHead n (n ++ b) = true := listIsHead_append n b
    rw [h] at h2
    simp only [listHasSub]
    simp [h2]

theorem listHasSub_append {α : Type} [DecidableEq α] (a n b : List α) :
    listHasSub n (a ++ (n ++ b)) = true := by
  induction a with
  | nil => simpa using listHasSub_head n b
  | cons c cs ih =>
    simp only [List.cons_append, listHasSub]
    simp [ih]

theorem string_data_append (s t : String) : (s ++ t).data = s.data ++ t.data := rfl

theorem strHasSub_of_parts (pre mid post : String) :
    strHasSub (pre ++ mid ++ post) mid = true := by
  unfold strHasSub
  rw [string_data_append, string_data_append, List.append_assoc]
  exact listHasSub_append pre.data mid.data post.data

theorem string_append_assoc (a b c : String) : a ++ b ++ c = a ++ (b ++ c) := by
  apply congrArg String.mk
  exact List.append_assoc a.data b.data c.data

/-! C5: synthesis-time relation checks of SQLAWalker.walk.  Quotes of the
original Python messages are elided (no apostrophes). -/

/-- Treatment-plan directive values as they occur in walk fields_control:
the SKIP sentinel, a Serializer (delegate), a nested dict control, a
CodeWriter fragment, or anything else. -/
inductive FieldControl
  | skip
  | serializer
  | dictControl
  | codeWriter
  | other
deriving DecidableEq, Repr

def missingDirectiveMsg (typeName relName : String) : String :=
  "Dont know how to serialize " ++ typeName ++ "." ++ relName ++
    " because you didnt specify a field control for it."

/-- walk sanity-check loop over fields_control: a control naming something
that is neither a relation nor a field, and is not a CodeWriter value, is a
fatal error. -/
def fcSanityCheck (typeName : String) (relations single_rnames fieldsNames : List String) :
    List (String × FieldControl) → Except String Unit
  | [] => .ok ()
  | (name, v) :: rest =>
    if name ∈ relations ∨ name ∈ single_rnames ∨ name ∈ fieldsNames ∨ v = .codeWriter then
      fcSanityCheck typeName relations single_rnames fieldsNames rest
    else
      .error ("The relation or field " ++ typeName ++ "." ++ name ++
        " you use in a field control doesnt exist.")

/-- walk loop over the single relations: a relation with no directive is a
fatal error naming the type and the relation; a non-SKIP directive must be a
Serializer (asserted). -/
def checkSingles (typeName : String) (fc : List (String × FieldControl)) :
    List String → Except String Unit
  | [] => .ok ()
  | r :: rest =>
    match alookup fc r with
    | none => .error (missingDirectiveMsg typeName r)
    | some v =>
      if v = .skip then checkSingles typeName fc rest
      else if v = .serializer then checkSingles typeName fc rest
      else .error ("Expected a relation serializer")

/-- walk loop building rel_to_walk over the collection relations: a relation
with no directive is a fatal error naming the type and the relation; SKIP,
Serializer and dict controls are understood, anything else is a fatal
error. -/
def checkColls (typeName : String) (fc : List (String × FieldControl)) :
    List String → Except String Unit
  | [] => .ok ()
  | r :: rest =>
    match alookup fc r with
    | none => .error (missingDirectiveMsg typeName r)
    | some v =>
      if v = .skip ∨ v = .serializer ∨ v = .dictControl then checkColls typeName fc rest
      else .error ("The relation field " ++ r ++ " for " ++ typeName ++
        " has a field control but I dont understand it.")

/-- The synthesis-time checks of walk in source order: fields_control sanity
check, then single relations, then collection relations. -/
def walkRelChecks (typeName : String) (fieldsNames single_rnames relations : List String)
    (fc : List (String × FieldControl)) : Except String Unit :=
  match fcSanityCheck typeName relations single_rnames fieldsNames fc with
  | .error e => .error e
  | .ok _ =>
    match checkSingles typeName fc single_rnames with
    | .error e => .error e
    | .ok _ => checkColls typeName fc relations

theorem strHasSub_concat4 (p a q b r5 : String) :
    strHasSub (p ++ a ++ q ++ b ++ r5) a = true ∧
      strHasSub (p ++ a ++ q ++ b ++ r5) b = true := by
  constructor
  · show listHasSub a.data (p.data ++ a.data ++ q.data ++ b.data ++ r5.data) = true
    simp only [List.append_assoc]
    exact listHasSub_append p.data a.data (q.data ++ (b.data ++ r5.data))
  · show listHasSub b.data (p.data ++ a.data ++ q.data ++ b.data ++ r5.data) = true
    simp only [List.append_assoc]
    have h := listHasSub_append (p.data ++ (a.data ++ q.data)) b.data r5.data
    simp only [List.append_assoc] at h
    exact h

theorem missingDirectiveMsg_names (t r : String) :
    strHasSub (missingDirectiveMsg t r) t = true ∧
      strHasSub (missingDirectiveMsg t r) r = true :=
  strHasSub_concat4 "Dont know how to serialize " t "." r
    " because you didnt specify a field control for it."

theorem alookup_mem {α β : Type} [DecidableEq α] {l : List (α × β)} {k : α} {v : β}
    (h : alookup l k = some v) : (k, v) ∈ l := by
  induction l with
  | nil => simp [alookup] at h
  | cons a t ih =>
    simp only [alookup] at h
    by_cases he : a.1 = k
    · rw [if_pos he] at h
      rw [Option.some_inj] at h
      have hkv : (k, v) = a := by
        obtain ⟨a1, a2⟩ := a
        simp only at he h
        rw [he, h]
      rw [hkv]
      exact List.mem_cons_self a t
    · rw [if_neg he] at h
      exact List.mem_cons_of_mem _ (ih h)

theorem fcSanityCheck_ok (t : String) (relations single_rnames fieldsNames : List String) :
    ∀ fc : List (String × FieldControl),
      (∀ p ∈ fc, p.1 ∈ relations ∨ p.1 ∈ single_rnames) →
      fcSanityCheck t relations single_rnames fieldsNames fc = .ok () := by
  intro fc
  induction fc with
  | nil => intro _; rfl
  | cons a rest ih =>
    intro h
    obtain ⟨name, v⟩ := a
    have h1 := h (name, v) (List.mem_cons_self _ _)
    have h2 := ih (fun p hp => h p (List.mem_cons_of_mem _ hp))
    have hcond : name ∈ relations ∨ name ∈ single_rnames ∨ name ∈ fieldsNames ∨
        v = FieldControl.codeWriter := by
      rcases h1 with h1 | h1
      · exact Or.inl h1
      · exact Or.inr (Or.inl h1)
    simp only [fcSanityCheck, if_pos hcond]
    exact h2

theorem checkSingles_ok (t : String) (fc : List (String × FieldControl))
    (hvals : ∀ p ∈ fc, p.2 = FieldControl.skip ∨ p.2 = FieldControl.serializer) :
    ∀ l, (∀ r ∈ l, (alookup fc r).isSome) → checkSingles t fc l = .ok () := by
  intro l
  induction l with
  | nil => intro _; rfl
  | cons a rest ih =>
    intro h
    have ha := h a (List.mem_cons_self _ _)
    cases hx : alookup fc a with
    | none => rw [hx] at ha; cases ha
    | some v =>
      have hv : v = FieldControl.skip ∨ v = FieldControl.serializer :=
        hvals (a, v) (alookup_mem hx)
      have h2 := ih (fun r hr => h r (List.mem_cons_of_mem _ hr))
      simp only [checkSingles, hx]
      rcases hv with hv | hv
      · rw [if_pos hv]; exact h2
      · rw [if_neg (by simp [hv]), if_pos hv]; exact h2

theorem checkSingles_err (t : String) (fc : List (String × FieldControl))
    (hvals : ∀ p ∈ fc, p.2 = FieldControl.skip ∨ p.2 = FieldControl.serializer) :
    ∀ l, (∃ r, r ∈ l ∧ alookup fc r = none) →
      ∃ r0, r0 ∈ l ∧ alookup fc r0 = none ∧
        checkSingles t fc l = .error (missingDirectiveMsg t r0) := by
  intro l
  induction l with
  | nil => rintro ⟨r, hr, _⟩; cases hr
  | cons a rest ih =>
    rintro ⟨r, hr, hnone⟩
    cases ha : alookup fc a with
    | none =>
      refine ⟨a, List.mem_cons_self _ _, ha, ?_⟩
      simp [checkSingles, ha]
    | some v =>
      have hv : v = FieldControl.skip ∨ v = FieldControl.serializer :=
        hvals (a, v) (alookup_mem ha)
      have hrec : checkSingles t fc (a :: rest) = checkSingles t fc rest := by
        simp only [checkSingles, ha]
        rcases hv with hv | hv
        · rw [if_pos hv]
        · rw [if_neg (by simp [hv]), if_pos hv]
      have hrrest : r ∈ rest := by
        rcases List.mem_cons.mp hr with rfl | h2
        · rw [ha] at hnone; cases hnone
        · exact h2
      obtain ⟨r0, h1, h2, h3⟩ := ih ⟨r, hrrest, hnone⟩
      exact ⟨r0, List.mem_cons_of_mem _ h1, h2, hrec.trans h3⟩

theorem checkColls_ok (t : String) (fc : List (String × FieldControl))
    (hvals : ∀ p ∈ fc, p.2 = FieldControl.skip ∨ p.2 = FieldControl.serializer) :
    ∀ l, (∀ r ∈ l, (alookup fc r).isSome) → checkColls t fc l = .ok () := by
  intro l
  induction l with
  | nil => intro _; rfl
  | cons a rest ih =>
    intro h
    have ha := h a (List.mem_cons_self _ _)
    cases hx : alookup fc a with
    | none => rw [hx] at ha; cases ha
    | some v =>
      have hv : v = FieldControl.skip ∨ v = FieldControl.serializer :=
        hvals (a, v) (alookup_mem hx)
      have h2 := ih (fun r hr => h r (List.mem_cons_of_mem _ hr))
      simp only [checkColls, hx]
      rcases hv with hv | hv
      · rw [if_pos (Or.inl hv)]; exact h2
      · rw [if_pos (Or.inr (Or.inl hv))]; exact h2

theorem checkColls_err (t : String) (fc : List (String × FieldControl))
    (hvals : ∀ p ∈ fc, p.2 = FieldControl.skip ∨ p.2 = FieldControl.serializer) :
    ∀ l, (∃ r, r ∈ l ∧ alookup fc r = none) →
      ∃ r0, r0 ∈ l ∧ alookup fc r0 = none ∧
        checkColls t fc l = .error (missingDirectiveMsg t r0) := by
  intro l
  induction l with
  | nil => rintro ⟨r, hr, _⟩; cases hr
  | cons a rest ih =>
    rintro ⟨r, hr, hnone⟩
    cases ha : alookup fc a with
    | none =>
      refine ⟨a, List.mem_cons_self _ _, ha, ?_⟩
      simp [checkColls, ha]
    | some v =>
      have hv : v = FieldControl.skip ∨ v = FieldControl.serializer :=
        hvals (a, v) (alookup_mem ha)
      have hrec : checkColls t fc (a :: rest) = checkColls t fc rest := by
        simp only [checkColls, ha]
        rcases hv with hv | hv
        · rw [if_pos (Or.inl hv)]
        · rw [if_pos (Or.inr (Or.inl hv))]
      have hrrest : r ∈ rest := by
        rcases List.mem_cons.mp hr with rfl | h2
        · rw [ha] at hnone; cases hnone
        · exact h2
      obtain ⟨r0, h1, h2, h3⟩ := ih ⟨r, hrrest, hnone⟩
      exact ⟨r0, List.mem_cons_of_mem _ h1, h2, hrec.trans h3⟩

/-- C5: For every entity type with a declared relation (single or
collection) that has no directive in its fields control, synthesis raises a
fatal error whose message names both the entity type and the missing
relation (the first missing one in declaration order), provided the
directives that are present are well-formed. -/
theorem claim_C5_missing_directive (typeName : String)
    (fieldsNames single_rnames relations : List String)
    (fc : List (String × FieldControl))
    (hnames : ∀ p ∈ fc, p.1 ∈ relations ∨ p.1 ∈ single_rnames)
    (hvals : ∀ p ∈ fc, p.2 = FieldControl.skip ∨ p.2 = FieldControl.serializer)
    (hmiss : ∃ r, (r ∈ single_rnames ∨ r ∈ relations) ∧ alookup fc r = none) :
    ∃ r0 msg, walkRelChecks typeName fieldsNames single_rnames relations fc = .error msg ∧
      (r0 ∈ single_rnames ∨ r0 ∈ relations) ∧ alookup fc r0 = none ∧
      msg = missingDirectiveMsg typeName r0 ∧
      strHasSub msg typeName = true ∧ strHasSub msg r0 = true := by
  obtain ⟨r, hrmem, hrnone⟩ := hmiss
  have hsan := fcSanityCheck_ok typeName relations single_rnames fieldsNames fc hnames
  by_cases hms : ∃ rr, rr ∈ single_rnames ∧ alookup fc rr = none
  · obtain ⟨r0, h1, h2, h3⟩ := checkSingles_err typeName fc hvals single_rnames hms
    refine ⟨r0, missingDirectiveMsg typeName r0, ?_, Or.inl h1, h2, rfl,
      (missingDirectiveMsg_names _ _).1, (missingDirectiveMsg_names _ _).2⟩
    simp [walkRelChecks, hsan, h3]
  · have hall : ∀ rr ∈ single_rnames, (alookup fc rr).isSome := by
      intro rr hrr
      cases hx : alookup fc rr with
      | none => exact absurd ⟨rr, hrr, hx⟩ hms
      | some _ => rfl
    have hok := checkSingles_ok typeName fc hvals single_rnames hall
    have hrrel : r ∈ relations := by
      rcases hrmem with h | h
      · exact absurd ⟨r, h, hrnone⟩ hms
      · exact h
    obtain ⟨r0, h1, h2, h3⟩ := checkColls_err typeName fc hvals relations ⟨r, hrrel, hrnone⟩
    refine ⟨r0, missingDirectiveMsg typeName r0, ?_, Or.inr h1, h2, rfl,
      (missingDirectiveMsg_names _ _).1, (missingDirectiveMsg_names _ _).2⟩
    simp [walkRelChecks, hsan, hok, h3]

theorem claim_C5_missing_directive_witness :
    ∃ msg, walkRelChecks "Order" [] ["customer"] [] [] = .error msg ∧
      strHasSub msg "Order" = true ∧ strHasSub msg "customer" = true := by
  obtain ⟨r0, msg, h1, hmem, _, _, h5, h6⟩ :=
    claim_C5_missing_directive "Order" [] ["customer"] [] []
      (fun p hp => absurd hp (by simp))
      (fun p hp => absurd hp (by simp))
      ⟨"customer", Or.inl (by simp), rfl⟩
  have hr : r0 = "customer" := by
    rcases hmem with h | h
    · simpa using h
    · simp at h
  subst hr
  exact ⟨msg, h1, h5, h6⟩

theorem strHasSub_tail2 (p b : String) : strHasSub (p ++ b) b = true := by
  unfold strHasSub
  show listHasSub b.data (p.data ++ b.data) = true
  have h := listHasSub_append p.data b.data []
  simpa using h

/-! C8: the container-kind dispatch of the two collection merge
generators. -/

/-- The container kind of a collection relation as the merge generators
dispatch on it: list-shaped (list or a typing.List subclass), set-shaped,
or anything else (keeping its printed form for the message). -/
inductive CollKind
  | listLike
  | setLike
  | other (printed : String)
deriving DecidableEq, Repr

/-- The collection-kind dispatch of pyxfer gen_merge_relation_sqla
(pyxfer/type_support.py): append for list-shaped, add for set-shaped,
otherwise a fatal error naming the collection class and the type names of
both relation item type supports. -/
def pyxferMergeKindCheck (ck : CollKind) (srcName destName : String) : Except String Unit :=
  match ck with
  | .listLike => .ok ()
  | .setLike => .ok ()
  | .other printed =>
    .error (("Unrecognized collection type (" ++ printed ++
      ") while building code to copy relation from ") ++ srcName ++ (" to " ++ destName))

/-- The collection-kind dispatch of montgomery gen_merge_relation_sqla
(montgomery/type_support.py): the fatal error message is the bare
constant. -/
def montMergeKindCheck (ck : CollKind) : Except String Unit :=
  match ck with
  | .listLike => .ok ()
  | .setLike => .ok ()
  | .other _ => .error "Unrecognized collection type"

/-- C8 (amended): if a collection relation container kind is neither
list-shaped nor set-shaped, the pyxfer merge generator fails with a fatal
error whose message names both relation item entity types; the montgomery
merge generator also fails, but its message names neither (see the
counterexample). -/
theorem claim_C8_container_kind (printed srcName destName : String) :
    ∃ msg, pyxferMergeKindCheck (CollKind.other printed) srcName destName = .error msg ∧
      strHasSub msg srcName = true ∧ strHasSub msg destName = true := by
  refine ⟨_, rfl, ?_, ?_⟩
  · exact strHasSub_of_parts ("Unrecognized collection type (" ++ printed ++
      ") while building code to copy relation from ") srcName (" to " ++ destName)
  · rw [← string_append_assoc]
    exact strHasSub_tail2 _ destName

/-- C8 counterexample: for the concrete relation item entity types dict and
OrderPart, the montgomery merge generator rejects an unrecognized container
kind with a message that names neither entity type, refuting the claim that
the error names both entity types involved. -/
theorem claim_C8_counterexample :
    montMergeKindCheck (CollKind.other "tuple") = .error "Unrecognized collection type" ∧
      strHasSub "Unrecognized collection type" "dict" = false ∧
      strHasSub "Unrecognized collection type" "OrderPart" = false := by
  refine ⟨rfl, ?_, ?_⟩ <;> decide

/-! C4: the build scheduler.  Two implementations exist:
pyxfer.pyxfer.SQLAAutoGen.make_serializers (pass loop, stalled pass raises
listing every missing dependency) and pyxfer.sqla_autogen
SQLAAutoGen.make_serializers (same loop, but with an eager raise as soon as
one relation targets a type outside the requested set). -/

/-- A requested model for the build scheduler: its type name, its relations
(name, target type name) merging collection and single relations, and the
relation names its fields control marks SKIP. -/
structure SchedModel where
  name : String
  rels : List (String × String)
  skips : List String
deriving DecidableEq, Repr

/-- One missing-dependency message (type.relation of type target). -/
def missingDepMsg (tname rname target : String) : String :=
  tname ++ "." ++ rname ++ " of type " ++ target

/-- The unresolved (type, relation, targetType) triples of one model during
a pass: relations not marked SKIP whose target type has neither a
placeholder serializer among the requested types of this call (placeholders
are created for every requested type before the loop) nor a previously
built serializer under the default series. -/
def modelMissingDeps (requested prebuilt : List String) (m : SchedModel) : List String :=
  (m.rels.filter (fun r => ¬ r.1 ∈ m.skips)).filterMap
    (fun r => if r.2 ∈ requested ∨ r.2 ∈ prebuilt then none
              else some (missingDepMsg m.name r.1 r.2))

/-- One pass of the pyxfer.pyxfer scheduler loop, returning (do_later,
dbg_missing_deps, serializers_made). -/
def schedPass (requested prebuilt : List String) :
    List SchedModel → List SchedModel × List String × Bool
  | [] => ([], [], false)
  | m :: rest =>
    if (modelMissingDeps requested prebuilt m).isEmpty then
      ((schedPass requested prebuilt rest).1, (schedPass requested prebuilt rest).2.1, true)
    else
      (m :: (schedPass requested prebuilt rest).1,
        modelMissingDeps requested prebuilt m ++ (schedPass requested prebuilt rest).2.1,
        (schedPass requested prebuilt rest).2.2)

/-- The pass loop of pyxfer.pyxfer SQLAAutoGen.make_serializers, with fuel:
while models remain, run a pass; if no serializer was made during the pass,
raise an error carrying every missing-dependency message collected during
that pass (the Python code joins them into one exception message); else
continue with the deferred set. -/
def schedLoopFuel (requested prebuilt : List String) :
    Nat → List SchedModel → Option (Except (List String) Unit)
  | 0, _ => none
  | _ + 1, [] => some (.ok ())
  | fuel + 1, m :: rest =>
    if (schedPass requested prebuilt (m :: rest)).2.2 then
      schedLoopFuel requested prebuilt fuel (schedPass requested prebuilt (m :: rest)).1
    else
      some (.error (schedPass requested prebuilt (m :: rest)).2.1)

/-- pyxfer.pyxfer SQLAAutoGen.make_serializers: the requested set (the keys
of models_fc, which all receive placeholder serializers up front) is
constant across passes. -/
def pyxferMakeSerializers (prebuilt : List String) (items : List SchedModel) :
    Option (Except (List String) Unit) :=
  schedLoopFuel (items.map SchedModel.name) prebuilt (items.length + 1) items

theorem schedPass_not_made (requested prebuilt : List String) :
    ∀ items, (schedPass requested prebuilt items).2.2 = false →
      (schedPass requested prebuilt items).2.1 =
        items.flatMap (modelMissingDeps requested prebuilt) ∧
      ∀ m ∈ items, modelMissingDeps requested prebuilt m ≠ [] := by
  intro items
  induction items with
  | nil => intro _; exact ⟨rfl, by simp⟩
  | cons m rest ih =>
    intro h
    cases hmd : (modelMissingDeps requested prebuilt m).isEmpty with
    | true =>
      simp only [schedPass, hmd, if_pos] at h
      simp at h
    | false =>
      simp only [schedPass, hmd, Bool.false_eq_true, if_false] at h ⊢
      obtain ⟨h1, h2⟩ := ih h
      refine ⟨?_, ?_⟩
      · simp [List.flatMap_cons, h1]
      · intro m2 hm2
        rcases List.mem_cons.mp hm2 with rfl | hm2
        · intro hc
          rw [hc] at hmd
          simp at hmd
        · exact h2 m2 hm2

theorem schedPass_le (requested prebuilt : List String) :
    ∀ items, (schedPass requested prebuilt items).1.length ≤ items.length := by
  intro items
  induction items with
  | nil => simp [schedPass]
  | cons m rest ih =>
    cases hmd : (modelMissingDeps requested prebuilt m).isEmpty with
    | true =>
      simp only [schedPass, hmd, if_pos]
      exact Nat.le_succ_of_le ih
    | false =>
      simp only [schedPass, hmd, Bool.false_eq_true, if_false, List.length_cons]
      simpa using ih

theorem schedPass_lt (requested prebuilt : List String) :
    ∀ items, (schedPass requested prebuilt items).2.2 = true →
      (schedPass requested prebuilt items).1.length < items.length := by
  intro items
  induction items with
  | nil => intro h; simp [schedPass] at h
  | cons m rest ih =>
    intro h
    cases hmd : (modelMissingDeps requested prebuilt m).isEmpty with
    | true =>
      simp only [schedPass, hmd, if_pos, List.length_cons]
      exact Nat.lt_succ_of_le (schedPass_le requested prebuilt rest)
    | false =>
      simp only [schedPass, hmd, Bool.false_eq_true, if_false] at h ⊢
      simpa using ih h

theorem schedLoopFuel_total (requested prebuilt : List String) :
    ∀ fuel items, items.length < fuel →
      (schedLoopFuel requested prebuilt fuel items).isSome := by
  intro fuel
  induction fuel with
  | zero => intro items h; omega
  | succ f ih =>
    intro items h
    cases items with
    | nil => simp [schedLoopFuel]
    | cons m rest =>
      cases hmade : (schedPass requested prebuilt (m :: rest)).2.2 with
      | true =>
        simp only [schedLoopFuel, hmade, if_pos]
        apply ih
        have := schedPass_lt requested prebuilt (m :: rest) hmade
        simp only [List.length_cons] at this h ⊢
        omega
      | false => simp [schedLoopFuel, hmade]

theorem schedLoopFuel_err (requested prebuilt : List String) :
    ∀ fuel items msgs, schedLoopFuel requested prebuilt fuel items = some (.error msgs) →
      ∃ stalled : List SchedModel, stalled ≠ [] ∧
        msgs = stalled.flatMap (modelMissingDeps requested prebuilt) ∧
        ∀ m ∈ stalled, modelMissingDeps requested prebuilt m ≠ [] := by
  intro fuel
  induction fuel with
  | zero => intro items msgs h; simp [schedLoopFuel] at h
  | succ f ih =>
    intro items msgs h
    cases items with
    | nil => simp [schedLoopFuel] at h
    | cons m rest =>
      cases hmade : (schedPass requested prebuilt (m :: rest)).2.2 with
      | true =>
        simp only [schedLoopFuel, hmade, if_pos] at h
        exact ih _ _ h
      | false =>
        simp only [schedLoopFuel, hmade, Bool.false_eq_true, if_false, Option.some_inj] at h
        have hchar := schedPass_not_made requested prebuilt (m :: rest) hmade
        refine ⟨m :: rest, by simp, ?_, hchar.2⟩
        cases h
        exact hchar.1

/-- C4 (amended): the pyxfer.pyxfer build scheduler terminates for every
requested set of models in any declaration order — with fuel one more than
the number of requested models the pass loop never exhausts its fuel — and
when it fails, the failing pass built no serializer and the raised error
reports every unresolved (type, relation, targetType) dependency collected
during that stalled pass, not just the first one.  (The pyxfer.sqla_autogen
variant instead raises while analyzing the first relation whose target type
is outside the requested set, reporting only that one dependency; see the
counterexample.) -/
theorem claim_C4_scheduler (prebuilt : List String) (items : List SchedModel) :
    (pyxferMakeSerializers prebuilt items).isSome ∧
    (∀ msgs, pyxferMakeSerializers prebuilt items = some (.error msgs) →
      ∃ stalled : List SchedModel, stalled ≠ [] ∧
        msgs = stalled.flatMap (modelMissingDeps (items.map SchedModel.name) prebuilt) ∧
        ∀ m ∈ stalled, modelMissingDeps (items.map SchedModel.name) prebuilt m ≠ []) := by
  constructor
  · exact schedLoopFuel_total (items.map SchedModel.name) prebuilt (items.length + 1) items
      (by omega)
  · intro msgs h
    exact schedLoopFuel_err (items.map SchedModel.name) prebuilt (items.length + 1) items msgs h

theorem claim_C4_scheduler_witness :
    (pyxferMakeSerializers [] [⟨"X", [("r1", "Y")], []⟩]).isSome ∧
    ∃ stalled : List SchedModel, stalled ≠ [] ∧
      [missingDepMsg "X" "r1" "Y"] = stalled.flatMap (modelMissingDeps ["X"] []) := by
  have h := claim_C4_scheduler [] [⟨"X", [("r1", "Y")], []⟩]
  refine ⟨h.1, ?_⟩
  obtain ⟨stalled, h1, h2, _⟩ := h.2 [missingDepMsg "X" "r1" "Y"] (by rfl)
  exact ⟨stalled, h1, h2⟩

/-- The eager message of pyxfer.sqla_autogen make_serializers, raised while
analyzing a relation whose target type is not among the requested models
(quotes and braces of the Python format string elided). -/
def sqlaAutogenEagerMsg (tname rname target : String) : String :=
  "For relation " ++ tname ++ "." ++ rname ++
    ", I dont know what to do with its target type : " ++ target ++
    ". You must skip that relation or tell me about its target type in the fields controls."

/-- The relation-analysis loop of pyxfer.sqla_autogen make_serializers for
one model: skip relations marked SKIP; raise immediately when the target
type is not among the requested models; otherwise resolve against the
placeholder serializers (requested) or the prebuilt default series, and
collect a missing-dependency message when neither matches. -/
def sqlaAutogenAnalyzeRels (modelsFC requested prebuilt : List String)
    (tname : String) (skips : List String) :
    List (String × String) → Except String (List String)
  | [] => .ok []
  | r :: rest =>
    if r.1 ∈ skips then sqlaAutogenAnalyzeRels modelsFC requested prebuilt tname skips rest
    else if ¬ r.2 ∈ modelsFC then .error (sqlaAutogenEagerMsg tname r.1 r.2)
    else if r.2 ∈ requested ∨ r.2 ∈ prebuilt then
      sqlaAutogenAnalyzeRels modelsFC requested prebuilt tname skips rest
    else
      match sqlaAutogenAnalyzeRels modelsFC requested prebuilt tname skips rest with
      | .error e => .error e
      | .ok ms => .ok (missingDepMsg tname r.1 r.2 :: ms)

/-- One pass of the pyxfer.sqla_autogen scheduler loop: analyze each model;
an eager error aborts the pass; a model with no missing dependency is
built. -/
def sqlaAutogenPass (modelsFC requested prebuilt : List String) :
    List SchedModel → Except String (List SchedModel × List String × Bool)
  | [] => .ok ([], [], false)
  | m :: rest =>
    match sqlaAutogenAnalyzeRels modelsFC requested prebuilt m.name m.skips m.rels with
    | .error e => .error e
    | .ok ms =>
      match sqlaAutogenPass modelsFC requested prebuilt rest with
      | .error e => .error e
      | .ok acc =>
        if ms.isEmpty then .ok (acc.1, acc.2.1, true)
        else .ok (m :: acc.1, ms ++ acc.2.1, acc.2.2)

/-- The pass loop of pyxfer.sqla_autogen SQLAAutoGen.make_serializers. -/
def sqlaAutogenLoop (modelsFC requested prebuilt : List String) :
    Nat → List SchedModel → Option (Except String Unit)
  | 0, _ => none
  | _ + 1, [] => some (.ok ())
  | fuel + 1, m :: rest =>
    match sqlaAutogenPass modelsFC requested prebuilt (m :: rest) with
    | .error e => some (.error e)
    | .ok p =>
      if p.2.2 then sqlaAutogenLoop modelsFC requested prebuilt fuel p.1
      else some (.error "stalled pass")

def sqlaAutogenMakeSerializers (prebuilt : List String) (items : List SchedModel) :
    Option (Except String Unit) :=
  sqlaAutogenLoop (items.map SchedModel.name) (items.map SchedModel.name) prebuilt
    (items.length + 1) items

/-- C4 counterexample: requesting the single model X whose relations r1 and
r2 target the never-requested types Y and Z, both dependencies are
unresolved, yet the pyxfer.sqla_autogen scheduler raises an error that
names only the first (X, r1, Y) and does not mention Z or r2 at all —
refuting, for this implementation, the claim that the fatal error reports
every unresolved dependency collected during the pass. -/
theorem claim_C4_counterexample :
    sqlaAutogenMakeSerializers [] [⟨"X", [("r1", "Y"), ("r2", "Z")], []⟩] =
      some (.error (sqlaAutogenEagerMsg "X" "r1" "Y")) ∧
    modelMissingDeps ["X"] [] ⟨"X", [("r1", "Y"), ("r2", "Z")], []⟩ =
      [missingDepMsg "X" "r1" "Y", missingDepMsg "X" "r2" "Z"] ∧
    strHasSub (sqlaAutogenEagerMsg "X" "r1" "Y") "Z" = false ∧
    strHasSub (sqlaAutogenEagerMsg "X" "r1" "Y") "r2" = false := by
  refine ⟨by rfl, by rfl, by decide, by decide⟩

/-! C3: the collection reconciliation scenario (destination keys 1,2,3;
source keys 2,4) run against the two gen_merge_relation_sqla
implementations, in the dict-to-SQLA direction. -/

/-- State for the reconciliation scenario: destination instances
(id, (keyField, nameField)), the session identity map keyed by the primary
key (the identity-map check of _sqla_session_add), the serialization cache,
and the id allocator. -/
structure MSt where
  dheap : List (Nat × (Int × String))
  idmap : List (Int × Nat)
  cache : List ((String × Int) × Nat)
  next : Nat
deriving DecidableEq, Repr

/-- Cache base name of the relation item serializer (make_cache_base_name
of the child source and destination type supports). -/
def childBase : String := "dict_OrderPart"

/-- Cache base name passed by walk to relation_copy: the parent serializer
pair, not the child pair. -/
def parentBase : String := "dict_Order"

def updM (l : List (Nat × (Int × String))) (d : Nat) (v : Int × String) :
    List (Nat × (Int × String)) :=
  match l with
  | [] => []
  | (k, o) :: rest => if k = d then (k, v) :: rest else (k, o) :: updM rest d v

/-- Field copy plus cache registration of the generated item serializer. -/
def writeAndCache (item : Int × String) (d : Nat) (st : MSt) : Nat × MSt :=
  (d, { st with
        dheap := updM st.dheap d item,
        cache := ((childBase, item.1), d) :: st.cache })

/-- The generated item serializer (dict to SQLA): cache lookup under
(childBase, pk) — for a plain dict with neither reuse nor id marker,
SQLADictTypeSupport.cache_key yields the base name plus the key field
values — then destination resolution: the caller-provided destination, else
_sqla_session_add, which returns the session identity-map instance for that
key when one exists and a fresh instance otherwise; then field copy, cache
registration, return dest. -/
def childSer (item : Int × String) (dest : Option Nat) (st : MSt) : Nat × MSt :=
  match alookup st.cache (childBase, item.1) with
  | some d => (d, st)
  | none =>
    match dest with
    | some d => writeAndCache item d st
    | none =>
      match alookup st.idmap item.1 with
      | some d => writeAndCache item d st
      | none =>
        writeAndCache item st.next
          { st with dheap := st.dheap ++ [(st.next, (0, ""))],
                    idmap := (item.1, st.next) :: st.idmap,
                    next := st.next + 1 }

/-- The emitted pyxfer merge loop (gen_merge_relation_sqla, list-shaped):
rck is the item cache key computed with the parent base name, dest_item =
cache.get(rck, None), the item serializer runs against dest_item, a cache
miss appends the result to the destination collection, and the used set
collects every result. -/
def pyxferMergeLoop : List (Int × String) → List Nat → List Nat → MSt →
    List Nat × List Nat × MSt
  | [], dcoll, used, st => (dcoll, used, st)
  | item :: rest, dcoll, used, st =>
    match alookup st.cache (parentBase, item.1) with
    | some d0 =>
      pyxferMergeLoop rest dcoll
        (if (childSer item (some d0) st).1 ∈ used then used
         else used ++ [(childSer item (some d0) st).1])
        (childSer item (some d0) st).2
    | none =>
      pyxferMergeLoop rest (dcoll ++ [(childSer item none st).1])
        (if (childSer item none st).1 ∈ used then used
         else used ++ [(childSer item none st).1])
        (childSer item none st).2

/-- pyxfer gen_merge_relation_sqla runtime at this scenario: the loop, then
removal of every distinct pre-existing item not in the used set. -/
def pyxferMergeList (items : List (Int × String)) (dcoll : List Nat) (st : MSt) :
    List Nat × MSt :=
  match pyxferMergeLoop items dcoll [] st with
  | (dc, used, st1) => (removeExtras dc used, st1)

def eraseKey : List (Int × Nat) → Int → List (Int × Nat)
  | [], _ => []
  | (k0, v) :: rest, k => if k0 = k then eraseKey rest k else (k0, v) :: eraseKey rest k

/-- Python dict assignment: the new entry wins and shadows nothing. -/
def dictSet (l : List (Int × Nat)) (k : Int) (v : Nat) : List (Int × Nat) :=
  (k, v) :: eraseKey l k

def destKeyOf (st : MSt) (d : Nat) : Int := ((alookup st.dheap d).getD (0, "")).1

/-- dest_inst_keys of montgomery gen_merge_relation_sqla: iterate the
current destination collection and map each item key (read through the
destination-side field reader) to the item. -/
def montDestKeys (st : MSt) (dcoll : List Nat) : List (Int × Nat) :=
  dcoll.foldl (fun acc d => dictSet acc (destKeyOf st d) d) []

/-- The emitted montgomery merge loop: each source item key is looked up in
dest_inst_keys; a hit serializes into the existing destination item and
deletes the key; a miss serializes into a fresh destination (added to the
session) and appends it. -/
def montMergeLoop : List (Int × String) → List (Int × Nat) → List Nat → MSt →
    List (Int × Nat) × List Nat × MSt
  | [], dk, dcoll, st => (dk, dcoll, st)
  | item :: rest, dk, dcoll, st =>
    match alookup dk item.1 with
    | some ditem =>
      montMergeLoop rest (eraseKey dk item.1) dcoll (childSer item (some ditem) st).2
    | none =>
      montMergeLoop rest dk (dcoll ++ [(childSer item none st).1]) (childSer item none st).2

/-- montgomery gen_merge_relation_sqla runtime at this scenario: build
dest_inst_keys from the destination collection, run the loop, then remove
every leftover destination instance. -/
def montMergeList (items : List (Int × String)) (dcoll : List Nat) (st : MSt) :
    List Nat × MSt :=
  match montMergeLoop items (montDestKeys st dcoll) dcoll st with
  | (dk, dc, st1) => (dk.foldl (fun l kv => l.erase kv.2) dc, st1)

/-- The scenario state: three persisted destination items with keys 1, 2, 3
(ids 10, 20, 30) known to the session identity map, a fresh serialization
cache, allocator at 100. -/
def mergeSt0 : MSt :=
  ⟨[(10, (1, "one0")), (20, (2, "two0")), (30, (3, "three0"))],
   [(1, 10), (2, 20), (3, 30)], [], 100⟩

/-- C3 (amended): merging source keys 2,4 into destination keys 1,2,3 with
the montgomery gen_merge_relation_sqla yields exactly the items with keys
2 and 4: the key-2 item is the pre-existing destination instance (same id,
matched through the dest_inst_keys map built by iterating the destination
collection and updated in place), the key-4 item is newly created and
appended, and the items with keys 1 and 3 are removed.  The pyxfer
gen_merge_relation_sqla matches through the serialization cache instead and
re-appends the reused pre-existing item (see the counterexample). -/
theorem claim_C3_collection_reconciliation :
    (montMergeList [(2, "two"), (4, "four")] [10, 20, 30] mergeSt0).1 = [20, 100] ∧
    20 ∈ [10, 20, 30] ∧ ¬ 100 ∈ [10, 20, 30] ∧
    alookup (montMergeList [(2, "two"), (4, "four")] [10, 20, 30] mergeSt0).2.dheap 20 =
      some (2, "two") ∧
    alookup (montMergeList [(2, "two"), (4, "four")] [10, 20, 30] mergeSt0).2.dheap 100 =
      some (4, "four") := by
  refine ⟨by decide, by decide, by decide, by decide, by decide⟩

/-- C3 counterexample: on the very scenario of the claim, the pyxfer
gen_merge_relation_sqla leaves the pre-existing key-2 destination instance
twice in the list-shaped destination collection (its cache lookup under the
parent base name misses, so the item reused through the session identity
map is appended again), so the resulting collection is [2-item, 2-item,
4-item] rather than the claimed [2-item, 4-item]. -/
theorem claim_C3_counterexample :
    (pyxferMergeList [(2, "two"), (4, "four")] [10, 20, 30] mergeSt0).1 = [20, 20, 100] ∧
    ((pyxferMergeList [(2, "two"), (4, "four")] [10, 20, 30] mergeSt0).1.count 20 = 2) ∧
    [20, 20, 100] ≠ ([20, 100] : List Nat) := by
  refine ⟨by decide, by decide, by decide⟩

/-! C7 and C10: cache keys of the flattened-dict representation. -/

/-- Python scalar values occurring in flattened records. -/
inductive PyScalar where
  | pynone
  | pyint (i : Int)
  | pystr (s : String)
deriving DecidableEq, Repr

/-- Python values occurring in flattened records: a scalar, or a
list/tuple of scalars (a reuse marker value is a tuple of key values or an
identity token, and JSON transport turns tuples into arrays). -/
inductive PyVal where
  | scalar (v : PyScalar)
  | pylist (xs : List PyScalar)
  | pytuple (xs : List PyScalar)
deriving DecidableEq, Repr

def REUSE_TAG : String := "__PYXPTR"
def ID_TAG : String := "__PYXID"

/-- The cache key computation generated by pyxfer
SQLADictTypeSupport.cache_key: if the reuse marker is present, a list or
tuple value v yields (cacheBaseName,) + tuple(v) and any other value v
yields (cacheBaseName, v); else the identity marker yields (cacheBaseName,
idValue); else the key is the base name plus the key field values.  Every
branch yields a defined key (a missing key field would raise KeyError in
Python, modelled by a None field value). -/
def sqlaDictCacheKey (cacheBaseName : String) (keyNames : List String)
    (source : List (String × PyVal)) : Option (String × List PyVal) :=
  match alookup source REUSE_TAG with
  | some v =>
    match v with
    | .pylist xs => some (cacheBaseName, xs.map PyVal.scalar)
    | .pytuple xs => some (cacheBaseName, xs.map PyVal.scalar)
    | _ => some (cacheBaseName, [v])
  | none =>
    match alookup source ID_TAG with
    | some i => some (cacheBaseName, [i])
    | none =>
      some (cacheBaseName,
        keyNames.map (fun k => (alookup source k).getD (PyVal.scalar .pynone)))

/-- C10: a reuse-marker value that is a list produces exactly the same
cache key as the same value as a tuple — both yield the base name followed
by the elements — so a wire payload whose tuples became arrays under JSON
still resolves to the same cached destination on the reverse transform. -/
theorem claim_C10_list_tuple_cache_key (base : String) (knames : List String)
    (rec1 rec2 : List (String × PyVal)) (xs : List PyScalar)
    (h1 : alookup rec1 REUSE_TAG = some (.pylist xs))
    (h2 : alookup rec2 REUSE_TAG = some (.pytuple xs)) :
    sqlaDictCacheKey base knames rec1 = sqlaDictCacheKey base knames rec2 ∧
      sqlaDictCacheKey base knames rec1 = some (base, xs.map PyVal.scalar) := by
  simp [sqlaDictCacheKey, h1, h2]

theorem claim_C10_list_tuple_cache_key_witness :
    sqlaDictCacheKey "OrderPart_dict" ["order_part_id"]
        [(REUSE_TAG, PyVal.pylist [.pyint 5])] =
      sqlaDictCacheKey "OrderPart_dict" ["order_part_id"]
        [(REUSE_TAG, PyVal.pytuple [.pyint 5])] ∧
    sqlaDictCacheKey "OrderPart_dict" ["order_part_id"]
        [(REUSE_TAG, PyVal.pylist [.pyint 5])] =
      some ("OrderPart_dict", [PyVal.scalar (.pyint 5)]) :=
  claim_C10_list_tuple_cache_key "OrderPart_dict" ["order_part_id"]
    [(REUSE_TAG, PyVal.pylist [.pyint 5])] [(REUSE_TAG, PyVal.pytuple [.pyint 5])]
    [.pyint 5] (by decide) (by decide)

/-- The generated cache lookup guard of walk: if (cache_key is not None)
and (cache_key in cache): return cache[cache_key].  A None key never
reuses. -/
def cacheLookupStep (key : Option (String × List PyVal))
    (cache : List (Option (String × List PyVal) × Nat)) : Option Nat :=
  match key with
  | none => none
  | some k => alookup cache (some k)

/-- The generated cache write (default TypeSupport.cache_on_write, and
likewise montgomery SQLADictTypeSupport.cache_on_write): cache[cache_key] =
dest, with no guard on the key. -/
def cacheOnWriteStep (key : Option (String × List PyVal)) (dest : Nat)
    (cache : List (Option (String × List PyVal) × Nat)) :
    List (Option (String × List PyVal) × Nat) :=
  (key, dest) :: cache

/-- The default TypeSupport.cache_key: the cache base name and the Python
identity of the source object — always a defined key. -/
def defaultCacheKey (base : String) (sid : Int) : Option (String × List PyVal) :=
  some (base, [PyVal.scalar (.pyint sid)])

/-- Python truthiness of the modelled values. -/
def pyTruthy : PyVal → Bool
  | .scalar .pynone => false
  | .scalar (.pyint i) => decide (¬ i = 0)
  | .scalar (.pystr s) => decide (¬ s = "")
  | .pylist xs => decide (¬ xs = [])
  | .pytuple xs => decide (¬ xs = [])

/-- The cache key computation generated by montgomery
SQLADictTypeSupport.cache_key: the base name plus the key field values,
collapsed to None when no key field value is truthy. -/
def montSqlaDictCacheKey (cacheBaseName : String) (keyNames : List String)
    (source : List (String × PyVal)) : Option (String × List PyVal) :=
  if (keyNames.map (fun k => (alookup source k).getD (PyVal.scalar .pynone))).any pyTruthy then
    some (cacheBaseName,
      keyNames.map (fun k => (alookup source k).getD (PyVal.scalar .pynone)))
  else none

/-- C7 (amended): with an undefined (None) cache key the generated lookup
guard never reuses a cached destination, and the cache key computations of
pyxfer (SQLADictTypeSupport.cache_key and the default
TypeSupport.cache_key, which is the base name plus the source identity)
always produce a defined key, so pyxfer transforms never store under None;
the cache write itself is unguarded, so a key computation that can yield
None — montgomery SQLADictTypeSupport.cache_key with no truthy key field —
does store an entry under the None key (see the counterexample). -/
theorem claim_C7_undefined_cache_key :
    (∀ cache, cacheLookupStep none cache = none) ∧
    (∀ base knames src, (sqlaDictCacheKey base knames src).isSome) ∧
    (∀ (base : String) (sid : Int), (defaultCacheKey base sid).isSome) := by
  refine ⟨fun _ => rfl, ?_, fun _ _ => rfl⟩
  intro base knames src
  unfold sqlaDictCacheKey
  cases alookup src REUSE_TAG with
  | some v => cases v <;> rfl
  | none =>
    cases alookup src ID_TAG with
    | some i => rfl
    | none => rfl

/-- C7 counterexample: montgomery SQLADictTypeSupport.cache_key on a record
whose only key field is None computes the undefined key, and the unguarded
cache write then stores an entry under the undefined key — refuting the
claim that no entry is ever stored under the undefined key (the guarded
lookup still never reuses it). -/
theorem claim_C7_counterexample :
    montSqlaDictCacheKey "b" ["id"] [("id", PyVal.scalar .pynone)] = none ∧
    cacheOnWriteStep (montSqlaDictCacheKey "b" ["id"] [("id", PyVal.scalar .pynone)]) 5 [] =
      [(none, 5)] ∧
    (none, 5) ∈
      cacheOnWriteStep (montSqlaDictCacheKey "b" ["id"] [("id", PyVal.scalar .pynone)]) 5 [] := by
  refine ⟨by decide, by decide, by decide⟩
